import Mathlib

/-!
# Verification of the automaker worktree / project-registry core

A shallow embedding of the worktree create handler
(`apps/server/src/routes/worktree/common.ts`), the project path validator
(`validateProjectPath`), the trash operations (`useTrashOperations`), and the
validated project-cycling hook (`useValidatedProjectCycling`), together with
proofs of the specified properties.
-/

namespace Automaker

/-! ## Path helpers (`common.ts`) -/

/-- `normalizePath`: replace every backslash with a forward slash
(`p.replace(/\\/g, "/")`). -/
def normalizePath (p : String) : String :=
  p.map (fun c => if c = '\\' then '/' else c)

/-- Character class `[A-Za-z0-9_-]` of the sanitizing regex. -/
def isWordChar (c : Char) : Bool :=
  ('a' ≤ c && c ≤ 'z') || ('A' ≤ c && c ≤ 'Z') || ('0' ≤ c && c ≤ '9')
    || c = '_' || c = '-'

/-- `branchName.replace(/[^a-zA-Z0-9_-]/g, "-")`: every character outside
`[A-Za-z0-9_-]` becomes `-`. -/
def sanitizeBranchName (s : String) : String :=
  s.map (fun c => if isWordChar c then c else '-')

/-- `path.join` on two segments (POSIX separator; the handler later
normalizes separators anyway). -/
def pathJoin (a b : String) : String := a ++ "/" ++ b

/-! ## World state for the create handler

The handler's effects are: `isGitRepo` (a probe), `mkdir` of the
`.worktrees` container, `access` of the target directory, a
`git rev-parse --verify` branch probe, the `git worktree add` command
(which creates the directory and, with `-b`, the branch), and the
`trackBranch` write.  We model the filesystem and repository as explicit
state and the two fallible external commands as oracles. -/

structure WorldState where
  /-- Paths of directories that exist. -/
  dirs : List String
  /-- Paths that are git working directories (`git rev-parse --is-inside-work-tree`). -/
  gitRepos : List String
  /-- Existing branches, keyed by `(repositoryPath, branchName)`. -/
  branches : List (String × String)
  /-- Branch-tracking ledger entries, keyed by `(repositoryPath, branchName)`. -/
  tracked : List (String × String)
  deriving Repr, DecidableEq

/-- Outcomes of the two external commands the handler runs after its
checks: `git worktree add` and the `trackBranch` write.  Either may throw. -/
structure ExecOutcome where
  worktreeAddOk : Bool
  trackBranchOk : Bool
  deriving Repr, DecidableEq

/-- The HTTP responses of `createCreateHandler`, one constructor per
distinct exit of the source. -/
inductive CreateResult where
  /-- 400: `projectPath and branchName required`. -/
  | missingParams : CreateResult
  /-- 400: `Not a git repository`. -/
  | notARepository : CreateResult
  /-- 400: `Worktree "<branchName>" already exists`. -/
  | worktreeAlreadyExists (branchName : String) : CreateResult
  /-- 500 with the error message (the outer `catch`). -/
  | serverError : CreateResult
  /-- 200: `{ path, branch, isNew }`. -/
  | ok (path : String) (branch : String) (isNew : Bool) : CreateResult
  deriving Repr, DecidableEq

/-- `mkdir(dir, { recursive: true })`: idempotent creation. -/
def mkdirRec (st : WorldState) (dir : String) : WorldState :=
  if dir ∈ st.dirs then st else { st with dirs := dir :: st.dirs }

/-- Modelled from the spec: `trackBranch` (its source,
`./branch-tracking.js`, is not in the repository snapshot) appends a
record if not already present for that `(repositoryPath, branchName)`
pair. -/
def trackBranch (st : WorldState) (repoPath branchName : String) : WorldState :=
  if (repoPath, branchName) ∈ st.tracked then st
  else { st with tracked := (repoPath, branchName) :: st.tracked }

/-- `git worktree add`: creates the worktree directory; with `-b` it also
creates the branch.  The handler issues `-b` exactly when the branch-existence
probe failed. -/
def worktreeAdd (st : WorldState) (repoPath branchName worktreePath : String)
    (branchExists : Bool) : WorldState :=
  let st1 := { st with dirs := worktreePath :: st.dirs }
  if branchExists then st1
  else { st1 with branches := (repoPath, branchName) :: st1.branches }

/-- Shallow embedding of `createCreateHandler` from
`apps/server/src/routes/worktree/common.ts`, step for step:
missing-parameter check, `isGitRepo` check, sanitation, `mkdir` of the
`.worktrees` container, the `access` collision check, the branch-existence
probe, `git worktree add` (attach or `-b` create), `trackBranch`, and the
success response.  Returns the response together with the final world
state. -/
def createCreateHandler (st : WorldState) (ex : ExecOutcome)
    (projectPath branchName : String) (baseBranch : Option String) :
    CreateResult × WorldState :=
  if projectPath = "" || branchName = "" then
    (CreateResult.missingParams, st)
  else if projectPath ∉ st.gitRepos then
    (CreateResult.notARepository, st)
  else
    let sanitizedName := sanitizeBranchName branchName
    let worktreesDir := pathJoin projectPath ".worktrees"
    let worktreePath := pathJoin worktreesDir sanitizedName
    let st1 := mkdirRec st worktreesDir
    if worktreePath ∈ st1.dirs then
      (CreateResult.worktreeAlreadyExists branchName, st1)
    else
      let branchExists := (projectPath, branchName) ∈ st1.branches
      if ex.worktreeAddOk then
        let st2 := worktreeAdd st1 projectPath branchName worktreePath branchExists
        if ex.trackBranchOk then
          let st3 := trackBranch st2 projectPath branchName
          (CreateResult.ok (normalizePath worktreePath) branchName (!branchExists), st3)
        else
          (CreateResult.serverError, st2)
      else
        (CreateResult.serverError, st1)

/-! ## Path validator (`validateProjectPath`)

The validator calls two Electron-API operations, `exists` and `stat`, each
of which may throw (permission errors, I/O failures).  We model the API as
oracles returning `Except`, where `.error` stands for a thrown exception;
the surrounding `try`/`catch` of the source turns every `.error` into
`false`. -/

/-- The `stats` object of a stat result (`stats?.isDirectory`). -/
structure Stats where
  isDirectory : Bool
  deriving Repr, DecidableEq

/-- The result object of `api.stat` (`{ success, stats? }`). -/
structure StatResult where
  success : Bool
  stats : Option Stats
  deriving Repr, DecidableEq

/-- The Electron API surface the validator uses; each call may throw.
(`exists` is a Lean keyword, hence the field name `existsPath`.) -/
structure ElectronAPI where
  existsPath : String → Except String Bool
  stat : String → Except String StatResult

/-- A project record (`{ id, name, path, lastOpened }`). -/
structure Project where
  id : String
  name : String
  path : String
  lastOpened : Nat
  deriving Repr, DecidableEq

/-- Shallow embedding of `validateProjectPath`
(`lib/validate-project-path.ts`): empty path → `false`; `api.exists` must
return exactly `true`; `api.stat` must succeed with `stats.isDirectory`;
any thrown exception is caught and collapses to `false`.  Totality of this
function is the embedding of "never raises". -/
def validateProjectPath (api : ElectronAPI) (project : Project) : Bool :=
  if project.path = "" then false
  else
    match api.existsPath project.path with
    | Except.error _ => false
    | Except.ok ex =>
      if ex ≠ true then false
      else
        match api.stat project.path with
        | Except.error _ => false
        | Except.ok statResult =>
          if !statResult.success then false
          else
            match statResult.stats with
            | none => false
            | some stats => stats.isDirectory

/-! ## Trash operations (`useTrashOperations`)

The hook receives the registry callbacks (`restoreTrashedProject`,
`deleteTrashedProject`) from the store; the store itself is not in the
snapshot, so those two moves are modelled from the spec.  The refusal /
guard logic is the source of `handleRestoreProject` and
`handleDeleteProjectFromDisk`. -/

/-- A trashed project record (`Project` plus `trashedAt`). -/
structure TrashedProject where
  id : String
  name : String
  path : String
  lastOpened : Nat
  trashedAt : Nat
  deriving Repr, DecidableEq

/-- View a trashed record as a project (for validation). -/
def TrashedProject.toProject (p : TrashedProject) : Project :=
  { id := p.id, name := p.name, path := p.path, lastOpened := p.lastOpened }

/-- The registry: active projects and the in-app trash. -/
structure Registry where
  active : List Project
  trashed : List TrashedProject
  deriving Repr, DecidableEq

/-- Modelled from the spec: `restoreTrashedProject` (a store callback whose
source is not in the snapshot) moves the record with the given id from the
trashed set back to the active set with its original id and path. -/
def restoreTrashedProject (reg : Registry) (projectId : String) : Registry :=
  match reg.trashed.find? (fun p => p.id = projectId) with
  | none => reg
  | some p =>
    { active := p.toProject :: reg.active
      trashed := reg.trashed.filter (fun q => q.id ≠ projectId) }

/-- Modelled from the spec: `deleteTrashedProject` (a store callback whose
source is not in the snapshot) removes the record with the given id from
the in-app trash permanently. -/
def deleteTrashedProject (reg : Registry) (projectId : String) : Registry :=
  { reg with trashed := reg.trashed.filter (fun q => q.id ≠ projectId) }

/-- The user-visible outcomes of `handleRestoreProject`, one per exit. -/
inductive RestoreOutcome where
  /-- `toast.error`: `Project not found`. -/
  | notFound : RestoreOutcome
  /-- `toast.error`: `Project path not found` — the caller is told to remove
  the record from the recycle bin and re-add the project from its new
  location. -/
  | pathNotFound : RestoreOutcome
  /-- `toast.success`: `Project restored`. -/
  | restored : RestoreOutcome
  deriving Repr, DecidableEq

/-- Shallow embedding of `handleRestoreProject` (the hook's `trashedProjects`
prop is the registry's trashed list): look the id up in the trash, validate
the path, and only on success call the store's restore. -/
def handleRestoreProject (api : ElectronAPI) (reg : Registry)
    (projectId : String) : RestoreOutcome × Registry :=
  match reg.trashed.find? (fun p => p.id = projectId) with
  | none => (RestoreOutcome.notFound, reg)
  | some project =>
    if validateProjectPath api project.toProject then
      (RestoreOutcome.restored, restoreTrashedProject reg projectId)
    else
      (RestoreOutcome.pathNotFound, reg)

/-- Result object of `api.trashItem` (`{ success, error? }`). -/
structure TrashItemResult where
  success : Bool
  error : Option String
  deriving Repr, DecidableEq

/-- The user-visible outcomes of `handleDeleteProjectFromDisk`. -/
inductive DeleteOutcome where
  /-- `toast.error`: `System Trash is not available in this build.` -/
  | facilityUnavailable : DeleteOutcome
  /-- `toast.error`: the trash request reported failure. -/
  | trashFailed : DeleteOutcome
  /-- `toast.success`: `Project folder sent to system Trash`. -/
  | deleted : DeleteOutcome
  deriving Repr, DecidableEq

/-- Shallow embedding of `handleDeleteProjectFromDisk`: `api.trashItem` may
be absent (`none` — the facility is unavailable, the source throws) or
return a result; only a successful result reaches the store's
`deleteTrashedProject`. -/
def handleDeleteProjectFromDisk (trashItem : Option (String → TrashItemResult))
    (reg : Registry) (trashedProject : TrashedProject) :
    DeleteOutcome × Registry :=
  match trashItem with
  | none => (DeleteOutcome.facilityUnavailable, reg)
  | some f =>
    let result := f trashedProject.path
    if !result.success then (DeleteOutcome.trashFailed, reg)
    else (DeleteOutcome.deleted, deleteTrashedProject reg trashedProject.id)

/-! ## History cycler (`use-validated-project-cycling.ts`)

The hook reads `projects`, `projectHistory`, `currentProject` from the app
store and keeps a local `isValidating` latch.  Its commit
(`switchProjectForCycling`) writes `currentProject`, `projectHistory`,
`projectHistoryIndex` and `currentView` back into the store.  We model the
store plus the latch as one state record, and `validateProjectPath` as an
oracle `validate : Project → Bool` (its own embedding is verified above). -/

structure AppState where
  projects : List Project
  trashedProjects : List TrashedProject
  projectHistory : List String
  projectHistoryIndex : Nat
  currentProject : Option Project
  currentView : String
  isValidating : Bool
  deriving Repr, DecidableEq

/-- `switchProjectForCycling`: the single `setState` of the commit — sets
the candidate as current, replaces the history with `validHistory`,
updates the index, and switches the view to the board. -/
def switchProjectForCycling (st : AppState) (project : Option Project)
    (validHistory : List String) (newIndex : Nat) : AppState :=
  { st with
    currentProject := project
    projectHistory := validHistory
    projectHistoryIndex := newIndex
    currentView := "board" }

/-- The candidate index for direction `prev` at a given attempt:
`(currentIndex + 1 + attempts) % validHistory.length`. -/
def prevCandidateIndex (currentIndex attempts len : Nat) : Nat :=
  (currentIndex + 1 + attempts) % len

/-- JavaScript's `%` on integers: truncated remainder (sign of the
dividend). -/
def jsMod (a n : Int) : Int := Int.tmod a n

/-- The candidate index for direction `next` at a given attempt:
`(((currentIndex - 1 - attempts) % len) + len) % len` computed with
JavaScript `%` semantics. -/
def nextCandidateIndex (currentIndex attempts len : Nat) : Nat :=
  (jsMod (jsMod ((currentIndex : Int) - 1 - (attempts : Int)) (len : Int)
      + (len : Int)) (len : Int)).toNat

/-- Does the candidate differ from the current project?
(`targetProject.id !== currentProject?.id`; when there is no current
project the comparison is against `undefined` and is true.) -/
def differsFromCurrent (targetProject : Project)
    (currentProject : Option Project) : Bool :=
  match currentProject with
  | none => true
  | some c => targetProject.id ≠ c.id

/-- The `while (attempts < maxAttempts)` loop of `cyclePrevProject`,
recursing on the remaining attempt budget.  Looks the candidate id up,
resolves it in `projects`, skips candidates equal to the current project
and candidates whose path fails validation, and returns the first valid
differing candidate with its index. -/
def cyclePrevLoop (validate : Project → Bool) (projects : List Project)
    (currentProject : Option Project) (validHistory : List String)
    (currentIndex : Nat) : Nat → Nat → Option (Project × Nat)
  | _, 0 => none
  | attempts, remaining + 1 =>
    let newIndex := prevCandidateIndex currentIndex attempts validHistory.length
    let step :=
      match validHistory.get? newIndex with
      | none => none
      | some targetProjectId =>
        match projects.find? (fun p => p.id = targetProjectId) with
        | none => none
        | some targetProject =>
          if differsFromCurrent targetProject currentProject
              && validate targetProject then
            some (targetProject, newIndex)
          else none
    match step with
    | some hit => some hit
    | none =>
      cyclePrevLoop validate projects currentProject validHistory currentIndex
        (attempts + 1) remaining

/-- The `while (attempts < maxAttempts)` loop of `cycleNextProject`;
identical to `cyclePrevLoop` except the candidate index decreases
(with the double-`%` correction for negative values). -/
def cycleNextLoop (validate : Project → Bool) (projects : List Project)
    (currentProject : Option Project) (validHistory : List String)
    (currentIndex : Nat) : Nat → Nat → Option (Project × Nat)
  | _, 0 => none
  | attempts, remaining + 1 =>
    let newIndex := nextCandidateIndex currentIndex attempts validHistory.length
    let step :=
      match validHistory.get? newIndex with
      | none => none
      | some targetProjectId =>
        match projects.find? (fun p => p.id = targetProjectId) with
        | none => none
        | some targetProject =>
          if differsFromCurrent targetProject currentProject
              && validate targetProject then
            some (targetProject, newIndex)
          else none
    match step with
    | some hit => some hit
    | none =>
      cycleNextLoop validate projects currentProject validHistory currentIndex
        (attempts + 1) remaining

/-- `projectHistory.filter((id) => projects.some((p) => p.id === id))`. -/
def filterValidHistory (projects : List Project)
    (projectHistory : List String) : List String :=
  projectHistory.filter (fun id => projects.any (fun p => p.id = id))

/-- `currentProjectId ? validHistory.indexOf(currentProjectId) : 0`,
followed by `if (currentIndex === -1) currentIndex = 0`.  A missing or
falsy (empty) id and an id absent from `validHistory` all yield 0. -/
def currentIndexIn (currentProject : Option Project)
    (validHistory : List String) : Nat :=
  match currentProject with
  | none => 0
  | some c =>
    if c.id = "" then 0
    else if c.id ∈ validHistory then validHistory.indexOf c.id
    else 0

/-- The synchronous prefix of both cycle functions, up to and including
`setIsValidating(true)` — everything that happens before the first
`await`: the latch-and-length guard, then setting the latch. -/
def cycleBegin (st : AppState) : Option AppState :=
  if st.isValidating || st.projectHistory.length ≤ 1 then none
  else some { st with isValidating := true }

/-- Shallow embedding of a completed run of `cyclePrevProject`: the guard,
the history filtering, the second length guard, the current-index
computation, the candidate loop, and — when a candidate is found — the
commit.  `setIsValidating(true)` … `finally setIsValidating(false)`
restores the latch, so a completed run leaves `isValidating` unchanged. -/
def cyclePrevProject (validate : Project → Bool) (st : AppState) : AppState :=
  if st.isValidating || st.projectHistory.length ≤ 1 then st
  else
    let validHistory := filterValidHistory st.projects st.projectHistory
    if validHistory.length ≤ 1 then st
    else
      let currentIndex := currentIndexIn st.currentProject validHistory
      match cyclePrevLoop validate st.projects st.currentProject validHistory
          currentIndex 0 validHistory.length with
      | some (targetProject, newIndex) =>
        switchProjectForCycling st (some targetProject) validHistory newIndex
      | none => st

/-- Shallow embedding of a completed run of `cycleNextProject`; identical
to `cyclePrevProject` except for the loop direction. -/
def cycleNextProject (validate : Project → Bool) (st : AppState) : AppState :=
  if st.isValidating || st.projectHistory.length ≤ 1 then st
  else
    let validHistory := filterValidHistory st.projects st.projectHistory
    if validHistory.length ≤ 1 then st
    else
      let currentIndex := currentIndexIn st.currentProject validHistory
      match cycleNextLoop validate st.projects st.currentProject validHistory
          currentIndex 0 validHistory.length with
      | some (targetProject, newIndex) =>
        switchProjectForCycling st (some targetProject) validHistory newIndex
      | none => st

/-! ### Concrete fixtures for the spec's cycling scenarios -/

/-- Example project `A` at path `/a`. -/
def projA : Project := { id := "A", name := "A", path := "/a", lastOpened := 0 }

/-- Example project `B` at path `/b`. -/
def projB : Project := { id := "B", name := "B", path := "/b", lastOpened := 0 }

/-- Example project `C` at path `/c`. -/
def projC : Project := { id := "C", name := "C", path := "/c", lastOpened := 0 }

/-- The spec's scenario: active list `[A, B, C]`, history `[A, B, C]`,
current project `B`, no operation in flight. -/
def stABC : AppState :=
  { projects := [projA, projB, projC]
    trashedProjects := []
    projectHistory := ["A", "B", "C"]
    projectHistoryIndex := 1
    currentProject := some projB
    currentView := "board"
    isValidating := false }

/-! ## Helper lemmas about the world-state operations -/

theorem pathJoin_ne (a b : String) : pathJoin a b ≠ a := by
  intro h
  have hlen := congrArg String.length h
  simp only [pathJoin, String.length_append] at hlen
  have h1 : ("/" : String).length = 1 := rfl
  omega

theorem mem_mkdirRec_dirs (st : WorldState) (d x : String) :
    x ∈ (mkdirRec st d).dirs ↔ x = d ∨ x ∈ st.dirs := by
  unfold mkdirRec
  split
  · constructor
    · intro h; exact Or.inr h
    · intro h
      rcases h with h | h
      · subst h; assumption
      · exact h
  · simp [List.mem_cons]

theorem mkdirRec_branches (st : WorldState) (d : String) :
    (mkdirRec st d).branches = st.branches := by
  unfold mkdirRec; split <;> rfl

theorem mkdirRec_gitRepos (st : WorldState) (d : String) :
    (mkdirRec st d).gitRepos = st.gitRepos := by
  unfold mkdirRec; split <;> rfl

theorem mkdirRec_tracked (st : WorldState) (d : String) :
    (mkdirRec st d).tracked = st.tracked := by
  unfold mkdirRec; split <;> rfl

theorem mkdirRec_of_mem (st : WorldState) (d : String) (h : d ∈ st.dirs) :
    mkdirRec st d = st := by
  unfold mkdirRec; simp [h]

theorem worktreeAdd_dirs (st : WorldState) (rp bn wp : String) (be : Bool) :
    (worktreeAdd st rp bn wp be).dirs = wp :: st.dirs := by
  unfold worktreeAdd; split <;> rfl

theorem worktreeAdd_gitRepos (st : WorldState) (rp bn wp : String) (be : Bool) :
    (worktreeAdd st rp bn wp be).gitRepos = st.gitRepos := by
  unfold worktreeAdd; split <;> rfl

theorem worktreeAdd_branches (st : WorldState) (rp bn wp : String) (be : Bool) :
    (worktreeAdd st rp bn wp be).branches =
      if be then st.branches else (rp, bn) :: st.branches := by
  unfold worktreeAdd; split <;> simp_all

theorem trackBranch_dirs (st : WorldState) (rp bn : String) :
    (trackBranch st rp bn).dirs = st.dirs := by
  unfold trackBranch; split <;> rfl

theorem trackBranch_gitRepos (st : WorldState) (rp bn : String) :
    (trackBranch st rp bn).gitRepos = st.gitRepos := by
  unfold trackBranch; split <;> rfl

theorem trackBranch_branches (st : WorldState) (rp bn : String) :
    (trackBranch st rp bn).branches = st.branches := by
  unfold trackBranch; split <;> rfl

/-- A successful run of the create handler: with non-empty parameters, a
git repository, a fresh target directory and both external commands
succeeding, the handler returns `ok` and the final state is the composition
of `mkdir`, `git worktree add` and `trackBranch`. -/
theorem createCreateHandler_success_eq
    (st : WorldState) (ex : ExecOutcome) (pp bn : String) (bb : Option String)
    (hpp : pp ≠ "") (hbn : bn ≠ "") (hrepo : pp ∈ st.gitRepos)
    (hfresh : pathJoin (pathJoin pp ".worktrees") (sanitizeBranchName bn) ∉ st.dirs)
    (hadd : ex.worktreeAddOk = true) (htrack : ex.trackBranchOk = true) :
    createCreateHandler st ex pp bn bb =
      (CreateResult.ok
         (normalizePath (pathJoin (pathJoin pp ".worktrees") (sanitizeBranchName bn)))
         bn (!decide ((pp, bn) ∈ st.branches)),
       trackBranch
         (worktreeAdd (mkdirRec st (pathJoin pp ".worktrees")) pp bn
           (pathJoin (pathJoin pp ".worktrees") (sanitizeBranchName bn))
           (decide ((pp, bn) ∈ st.branches)))
         pp bn) := by
  have hmem : pathJoin (pathJoin pp ".worktrees") (sanitizeBranchName bn)
      ∉ (mkdirRec st (pathJoin pp ".worktrees")).dirs := by
    rw [mem_mkdirRec_dirs]
    push_neg
    exact ⟨pathJoin_ne _ _, hfresh⟩
  unfold createCreateHandler
  rw [if_neg (by simp [hpp, hbn])]
  rw [if_neg (not_not_intro hrepo)]
  simp only [hmem, if_neg, mkdirRec_branches, hadd, htrack, if_true]
  simp [hmem]

/-- A colliding run of the create handler: when the target directory
already exists, the handler answers `WorktreeAlreadyExists` and the state
change is at most the idempotent `mkdir` of the container. -/
theorem createCreateHandler_collision_eq
    (st : WorldState) (ex : ExecOutcome) (pp bn : String) (bb : Option String)
    (hpp : pp ≠ "") (hbn : bn ≠ "") (hrepo : pp ∈ st.gitRepos)
    (hexists : pathJoin (pathJoin pp ".worktrees") (sanitizeBranchName bn) ∈ st.dirs) :
    createCreateHandler st ex pp bn bb =
      (CreateResult.worktreeAlreadyExists bn, mkdirRec st (pathJoin pp ".worktrees")) := by
  have hmem : pathJoin (pathJoin pp ".worktrees") (sanitizeBranchName bn)
      ∈ (mkdirRec st (pathJoin pp ".worktrees")).dirs := by
    rw [mem_mkdirRec_dirs]
    exact Or.inr hexists
  unfold createCreateHandler
  rw [if_neg (by simp [hpp, hbn])]
  rw [if_neg (not_not_intro hrepo)]
  simp [hmem]

/-- **C1**: with non-empty parameters, a git repository, a fresh target
directory and working external commands, the first create call succeeds —
`isNew = true` when the branch did not previously exist, `isNew = false`
when it did — and a second call whose requested name has the same
sanitized form fails with `WorktreeAlreadyExists` because the target
directory now exists, leaving the world state exactly as the first call
left it (no overwrite, no merge). -/
theorem create_twice_second_fails_worktreeAlreadyExists
    (st : WorldState) (ex : ExecOutcome)
    (projectPath branchName branchName2 : String)
    (baseBranch : Option String)
    (hpp : projectPath ≠ "") (hbn : branchName ≠ "") (hbn2 : branchName2 ≠ "")
    (hsan : sanitizeBranchName branchName2 = sanitizeBranchName branchName)
    (hrepo : projectPath ∈ st.gitRepos)
    (hfresh : pathJoin (pathJoin projectPath ".worktrees")
        (sanitizeBranchName branchName) ∉ st.dirs)
    (hadd : ex.worktreeAddOk = true) (htrack : ex.trackBranchOk = true) :
    ((projectPath, branchName) ∉ st.branches →
      (createCreateHandler st ex projectPath branchName baseBranch).1
        = CreateResult.ok
            (normalizePath (pathJoin (pathJoin projectPath ".worktrees")
              (sanitizeBranchName branchName)))
            branchName true)
    ∧ ((projectPath, branchName) ∈ st.branches →
      (createCreateHandler st ex projectPath branchName baseBranch).1
        = CreateResult.ok
            (normalizePath (pathJoin (pathJoin projectPath ".worktrees")
              (sanitizeBranchName branchName)))
            branchName false)
    ∧ createCreateHandler
        (createCreateHandler st ex projectPath branchName baseBranch).2
        ex projectPath branchName2 baseBranch
      = (CreateResult.worktreeAlreadyExists branchName2,
         (createCreateHandler st ex projectPath branchName baseBranch).2) := by
  have hsucc := createCreateHandler_success_eq st ex projectPath branchName
    baseBranch hpp hbn hrepo hfresh hadd htrack
  refine ⟨?_, ?_, ?_⟩
  · intro h
    rw [hsucc]
    simp [h]
  · intro h
    rw [hsucc]
    simp [h]
  · rw [hsucc]
    have hrepo2 : projectPath ∈
        (trackBranch (worktreeAdd (mkdirRec st (pathJoin projectPath ".worktrees"))
          projectPath branchName
          (pathJoin (pathJoin projectPath ".worktrees") (sanitizeBranchName branchName))
          (decide ((projectPath, branchName) ∈ st.branches))) projectPath branchName).gitRepos := by
      rw [trackBranch_gitRepos, worktreeAdd_gitRepos, mkdirRec_gitRepos]
      exact hrepo
    have hex2 : pathJoin (pathJoin projectPath ".worktrees") (sanitizeBranchName branchName2) ∈
        (trackBranch (worktreeAdd (mkdirRec st (pathJoin projectPath ".worktrees"))
          projectPath branchName
          (pathJoin (pathJoin projectPath ".worktrees") (sanitizeBranchName branchName))
          (decide ((projectPath, branchName) ∈ st.branches))) projectPath branchName).dirs := by
      rw [hsan, trackBranch_dirs, worktreeAdd_dirs]
      exact List.mem_cons_self _ _
    rw [createCreateHandler_collision_eq _ ex projectPath branchName2 baseBranch
      hpp hbn2 hrepo2 hex2]
    rw [mkdirRec_of_mem]
    rw [trackBranch_dirs, worktreeAdd_dirs]
    exact List.mem_cons_of_mem _ ((mem_mkdirRec_dirs _ _ _).mpr (Or.inl rfl))

/-- Witness for C1 at a concrete repository and branch name. -/
theorem create_twice_second_fails_worktreeAlreadyExists_witness :
    (("/repo", "feature/login x") ∉
        (WorldState.mk [] ["/repo"] [] []).branches →
      (createCreateHandler (WorldState.mk [] ["/repo"] [] [])
          (ExecOutcome.mk true true) "/repo" "feature/login x" none).1
        = CreateResult.ok
            (normalizePath (pathJoin (pathJoin "/repo" ".worktrees")
              (sanitizeBranchName "feature/login x")))
            "feature/login x" true)
    ∧ (("/repo", "feature/login x") ∈
        (WorldState.mk [] ["/repo"] [] []).branches →
      (createCreateHandler (WorldState.mk [] ["/repo"] [] [])
          (ExecOutcome.mk true true) "/repo" "feature/login x" none).1
        = CreateResult.ok
            (normalizePath (pathJoin (pathJoin "/repo" ".worktrees")
              (sanitizeBranchName "feature/login x")))
            "feature/login x" false)
    ∧ createCreateHandler
        (createCreateHandler (WorldState.mk [] ["/repo"] [] [])
          (ExecOutcome.mk true true) "/repo" "feature/login x" none).2
        (ExecOutcome.mk true true) "/repo" "feature/login x" none
      = (CreateResult.worktreeAlreadyExists "feature/login x",
         (createCreateHandler (WorldState.mk [] ["/repo"] [] [])
          (ExecOutcome.mk true true) "/repo" "feature/login x" none).2) :=
  create_twice_second_fails_worktreeAlreadyExists
    (WorldState.mk [] ["/repo"] [] []) (ExecOutcome.mk true true)
    "/repo" "feature/login x" "feature/login x" none
    (by decide) (by decide) (by decide) rfl (by decide) (by decide) rfl rfl

/-- **C2**: the target directory name is the requested branch name with
every character outside `[A-Za-z0-9_-]` replaced by `-` (so
`feature/login x` yields directory `feature-login-x` under
`repositoryPath/.worktrees`), while the branch the handler creates and the
`branch` field of the result are exactly the unsanitized requested
name. -/
theorem create_sanitizes_directory_keeps_branch
    (st : WorldState) (ex : ExecOutcome) (projectPath branchName : String)
    (baseBranch : Option String)
    (hpp : projectPath ≠ "") (hbn : branchName ≠ "")
    (hrepo : projectPath ∈ st.gitRepos)
    (hfresh : pathJoin (pathJoin projectPath ".worktrees")
        (sanitizeBranchName branchName) ∉ st.dirs)
    (hadd : ex.worktreeAddOk = true) (htrack : ex.trackBranchOk = true) :
    (∀ s : String, (sanitizeBranchName s).length = s.length
      ∧ ∀ i : Nat, i < s.length →
          (sanitizeBranchName s).data.getD i ' '
            = (if isWordChar (s.data.getD i ' ') then s.data.getD i ' ' else '-'))
    ∧ sanitizeBranchName "feature/login x" = "feature-login-x"
    ∧ (createCreateHandler st ex projectPath branchName baseBranch).1
        = CreateResult.ok
            (normalizePath (pathJoin (pathJoin projectPath ".worktrees")
              (sanitizeBranchName branchName)))
            branchName
            (!decide ((projectPath, branchName) ∈ st.branches))
    ∧ ((projectPath, branchName) ∉ st.branches →
        (createCreateHandler st ex projectPath branchName baseBranch).2.branches
          = (projectPath, branchName) :: st.branches) := by
  have hsucc := createCreateHandler_success_eq st ex projectPath branchName
    baseBranch hpp hbn hrepo hfresh hadd htrack
  refine ⟨?_, by rw [sanitizeBranchName, String.map_eq]; decide, ?_, ?_⟩
  · intro s
    have hdata : (sanitizeBranchName s).data
        = s.data.map (fun c => if isWordChar c then c else '-') := by
      rw [sanitizeBranchName, String.map_eq]
    constructor
    · show (sanitizeBranchName s).data.length = s.data.length
      rw [hdata, List.length_map]
    · intro i hi
      have hi' : i < s.data.length := hi
      have hi'' : i < ((s.data.map (fun c => if isWordChar c then c else '-'))).length := by
        rw [List.length_map]; exact hi'
      rw [hdata, List.getD_eq_getElem _ _ hi'', List.getD_eq_getElem _ _ hi',
        List.getElem_map]
  · rw [hsucc]
  · intro h
    rw [hsucc, trackBranch_branches, worktreeAdd_branches, mkdirRec_branches]
    simp [h]

/-- Witness for C2 at a concrete repository and branch name. -/
theorem create_sanitizes_directory_keeps_branch_witness :
    (∀ s : String, (sanitizeBranchName s).length = s.length
      ∧ ∀ i : Nat, i < s.length →
          (sanitizeBranchName s).data.getD i ' '
            = (if isWordChar (s.data.getD i ' ') then s.data.getD i ' ' else '-'))
    ∧ sanitizeBranchName "feature/login x" = "feature-login-x"
    ∧ (createCreateHandler (WorldState.mk [] ["/repo"] [] [])
          (ExecOutcome.mk true true) "/repo" "feature/login x" none).1
        = CreateResult.ok
            (normalizePath (pathJoin (pathJoin "/repo" ".worktrees")
              (sanitizeBranchName "feature/login x")))
            "feature/login x"
            (!decide (("/repo", "feature/login x") ∈
              (WorldState.mk [] ["/repo"] [] [] : WorldState).branches))
    ∧ ((("/repo", "feature/login x") ∉
          (WorldState.mk [] ["/repo"] [] [] : WorldState).branches) →
        (createCreateHandler (WorldState.mk [] ["/repo"] [] [])
          (ExecOutcome.mk true true) "/repo" "feature/login x" none).2.branches
          = ("/repo", "feature/login x")
              :: (WorldState.mk [] ["/repo"] [] [] : WorldState).branches) :=
  create_sanitizes_directory_keeps_branch
    (WorldState.mk [] ["/repo"] [] []) (ExecOutcome.mk true true)
    "/repo" "feature/login x" none
    (by decide) (by decide) (by decide) (by decide) rfl rfl

/-- A run in which `git worktree add` succeeds but the `trackBranch` write
throws: the outer catch reports a 500 and the worktree directory stays. -/
theorem createCreateHandler_trackFail_eq
    (st : WorldState) (pp bn : String) (bb : Option String)
    (hpp : pp ≠ "") (hbn : bn ≠ "") (hrepo : pp ∈ st.gitRepos)
    (hfresh : pathJoin (pathJoin pp ".worktrees") (sanitizeBranchName bn) ∉ st.dirs) :
    createCreateHandler st (ExecOutcome.mk true false) pp bn bb =
      (CreateResult.serverError,
       worktreeAdd (mkdirRec st (pathJoin pp ".worktrees")) pp bn
         (pathJoin (pathJoin pp ".worktrees") (sanitizeBranchName bn))
         (decide ((pp, bn) ∈ st.branches))) := by
  have hmem : pathJoin (pathJoin pp ".worktrees") (sanitizeBranchName bn)
      ∉ (mkdirRec st (pathJoin pp ".worktrees")).dirs := by
    rw [mem_mkdirRec_dirs]
    push_neg
    exact ⟨pathJoin_ne _ _, hfresh⟩
  unfold createCreateHandler
  rw [if_neg (by simp [hpp, hbn])]
  rw [if_neg (not_not_intro hrepo)]
  simp [hmem, mkdirRec_branches]

/-- The handler reports success only if both external commands
succeeded. -/
theorem createCreateHandler_ok_implies_both
    (st : WorldState) (ex : ExecOutcome) (pp bn : String) (bb : Option String)
    (p b : String) (n : Bool)
    (h : (createCreateHandler st ex pp bn bb).1 = CreateResult.ok p b n) :
    ex.worktreeAddOk = true ∧ ex.trackBranchOk = true := by
  unfold createCreateHandler at h
  split at h
  · simp at h
  · split at h
    · simp at h
    · simp only at h
      split at h
      · simp at h
      · split at h
        · split at h
          · simp_all
          · simp at h
        · simp at h

/-- **C10**: when `git worktree add` succeeds but the branch-tracking
write throws, the handler reports a 500 failure even though the worktree
directory (and, for a new branch, the branch) now exist, and no rollback
is attempted — the directory stays in the final state; a success result
requires both the worktree creation and the tracking write to succeed. -/
theorem create_track_failure_reports_error_no_rollback
    (st : WorldState) (projectPath branchName : String) (baseBranch : Option String)
    (hpp : projectPath ≠ "") (hbn : branchName ≠ "")
    (hrepo : projectPath ∈ st.gitRepos)
    (hfresh : pathJoin (pathJoin projectPath ".worktrees")
        (sanitizeBranchName branchName) ∉ st.dirs) :
    (createCreateHandler st (ExecOutcome.mk true false)
        projectPath branchName baseBranch).1 = CreateResult.serverError
    ∧ pathJoin (pathJoin projectPath ".worktrees") (sanitizeBranchName branchName)
        ∈ (createCreateHandler st (ExecOutcome.mk true false)
            projectPath branchName baseBranch).2.dirs
    ∧ (∀ (st' : WorldState) (ex : ExecOutcome) (pp' bn' p b : String)
          (bb : Option String) (n : Bool),
        (createCreateHandler st' ex pp' bn' bb).1 = CreateResult.ok p b n →
        ex.worktreeAddOk = true ∧ ex.trackBranchOk = true) := by
  have heq := createCreateHandler_trackFail_eq st projectPath branchName
    baseBranch hpp hbn hrepo hfresh
  refine ⟨?_, ?_, ?_⟩
  · rw [heq]
  · rw [heq]
    show _ ∈ (worktreeAdd _ _ _ _ _).dirs
    rw [worktreeAdd_dirs]
    exact List.mem_cons_self _ _
  · intro st' ex pp' bn' p b bb n h
    exact createCreateHandler_ok_implies_both st' ex pp' bn' bb p b n h

/-- Witness for C10 at a concrete repository and branch name. -/
theorem create_track_failure_reports_error_no_rollback_witness :
    (createCreateHandler (WorldState.mk [] ["/repo"] [] [])
        (ExecOutcome.mk true false) "/repo" "feat" none).1 = CreateResult.serverError
    ∧ pathJoin (pathJoin "/repo" ".worktrees") (sanitizeBranchName "feat")
        ∈ (createCreateHandler (WorldState.mk [] ["/repo"] [] [])
            (ExecOutcome.mk true false) "/repo" "feat" none).2.dirs
    ∧ (∀ (st' : WorldState) (ex : ExecOutcome) (pp' bn' p b : String)
          (bb : Option String) (n : Bool),
        (createCreateHandler st' ex pp' bn' bb).1 = CreateResult.ok p b n →
        ex.worktreeAddOk = true ∧ ex.trackBranchOk = true) :=
  create_track_failure_reports_error_no_rollback
    (WorldState.mk [] ["/repo"] [] []) "/repo" "feat" none
    (by decide) (by decide) (by decide) (by decide)

/-- **C3**: the path validator is a total boolean function of the API
responses — every failure mode (empty path, `exists` false or throwing,
`stat` throwing, unsuccessful or stat-without-stats, non-directory)
yields `false`, and it returns `true` exactly when the path is non-empty,
`exists` answers `true`, and `stat` succeeds reporting a directory.  It
consumes the API read-only and performs no mutation. -/
theorem validateProjectPath_never_raises_true_iff
    (api : ElectronAPI) (project : Project) :
    validateProjectPath api project = true ↔
      (project.path ≠ ""
        ∧ api.existsPath project.path = Except.ok true
        ∧ ∃ statResult stats,
            api.stat project.path = Except.ok statResult
            ∧ statResult.success = true
            ∧ statResult.stats = some stats
            ∧ stats.isDirectory = true) := by
  unfold validateProjectPath
  by_cases hp : project.path = ""
  · simp [hp]
  · rw [if_neg hp]
    cases hex : api.existsPath project.path with
    | error e => simp [hp, hex]
    | ok exv =>
      cases exv with
      | false => simp [hp, hex]
      | true =>
        cases hst : api.stat project.path with
        | error e => simp [hp, hex, hst]
        | ok statResult =>
          cases hsr : statResult.stats with
          | none => simp [hp, hex, hst, hsr]
          | some stats =>
            by_cases hs : statResult.success = true
            · simp [hp, hex, hst, hsr, hs]
            · simp [hp, hex, hst, hsr, hs]

/-- **C7**: restoring a trashed project whose path fails validation is
refused — the registry is returned unchanged (the record stays trashed, the
active set is untouched) and the caller is told the path no longer exists;
the record is moved back to the active set only when the path
validates. -/
theorem restore_refused_unless_path_validates
    (api : ElectronAPI) (reg : Registry) (projectId : String)
    (p : TrashedProject)
    (hfind : reg.trashed.find? (fun q => q.id = projectId) = some p) :
    (validateProjectPath api p.toProject = false →
        handleRestoreProject api reg projectId
          = (RestoreOutcome.pathNotFound, reg))
    ∧ ((handleRestoreProject api reg projectId).1 = RestoreOutcome.restored →
        validateProjectPath api p.toProject = true)
    ∧ (validateProjectPath api p.toProject = true →
        handleRestoreProject api reg projectId
          = (RestoreOutcome.restored, restoreTrashedProject reg projectId)
        ∧ p.toProject ∈ (restoreTrashedProject reg projectId).active
        ∧ (restoreTrashedProject reg projectId).trashed.find?
            (fun q => q.id = projectId) = none) := by
  refine ⟨?_, ?_, ?_⟩
  · intro hinvalid
    unfold handleRestoreProject
    rw [hfind]
    simp [hinvalid]
  · intro h
    by_cases hv : validateProjectPath api p.toProject = true
    · exact hv
    · exfalso
      unfold handleRestoreProject at h
      rw [hfind] at h
      simp [hv] at h
  · intro hvalid
    refine ⟨?_, ?_, ?_⟩
    · unfold handleRestoreProject
      rw [hfind]
      simp [hvalid]
    · unfold restoreTrashedProject
      rw [hfind]
      exact List.mem_cons_self _ _
    · unfold restoreTrashedProject
      rw [hfind]
      simp only [List.find?_eq_none, List.mem_filter]
      intro q hq
      simp only [decide_eq_true_eq]
      intro hid
      rcases hq with ⟨_, hne⟩
      simp [hid] at hne

/-- Witness for C7 at a concrete registry with one trashed project and an
API that validates its path. -/
theorem restore_refused_unless_path_validates_witness :
    (validateProjectPath
        (ElectronAPI.mk (fun _ => Except.ok true)
          (fun _ => Except.ok (StatResult.mk true (some (Stats.mk true)))))
        (TrashedProject.mk "p1" "P" "/p" 0 0).toProject = false →
      handleRestoreProject
        (ElectronAPI.mk (fun _ => Except.ok true)
          (fun _ => Except.ok (StatResult.mk true (some (Stats.mk true)))))
        (Registry.mk [] [TrashedProject.mk "p1" "P" "/p" 0 0]) "p1"
        = (RestoreOutcome.pathNotFound,
           Registry.mk [] [TrashedProject.mk "p1" "P" "/p" 0 0]))
    ∧ ((handleRestoreProject
        (ElectronAPI.mk (fun _ => Except.ok true)
          (fun _ => Except.ok (StatResult.mk true (some (Stats.mk true)))))
        (Registry.mk [] [TrashedProject.mk "p1" "P" "/p" 0 0]) "p1").1
          = RestoreOutcome.restored →
        validateProjectPath
          (ElectronAPI.mk (fun _ => Except.ok true)
            (fun _ => Except.ok (StatResult.mk true (some (Stats.mk true)))))
          (TrashedProject.mk "p1" "P" "/p" 0 0).toProject = true)
    ∧ (validateProjectPath
          (ElectronAPI.mk (fun _ => Except.ok true)
            (fun _ => Except.ok (StatResult.mk true (some (Stats.mk true)))))
          (TrashedProject.mk "p1" "P" "/p" 0 0).toProject = true →
        handleRestoreProject
          (ElectronAPI.mk (fun _ => Except.ok true)
            (fun _ => Except.ok (StatResult.mk true (some (Stats.mk true)))))
          (Registry.mk [] [TrashedProject.mk "p1" "P" "/p" 0 0]) "p1"
          = (RestoreOutcome.restored,
             restoreTrashedProject
               (Registry.mk [] [TrashedProject.mk "p1" "P" "/p" 0 0]) "p1")
        ∧ (TrashedProject.mk "p1" "P" "/p" 0 0).toProject
            ∈ (restoreTrashedProject
               (Registry.mk [] [TrashedProject.mk "p1" "P" "/p" 0 0]) "p1").active
        ∧ (restoreTrashedProject
             (Registry.mk [] [TrashedProject.mk "p1" "P" "/p" 0 0]) "p1").trashed.find?
            (fun q => q.id = "p1") = none) :=
  restore_refused_unless_path_validates
    (ElectronAPI.mk (fun _ => Except.ok true)
      (fun _ => Except.ok (StatResult.mk true (some (Stats.mk true)))))
    (Registry.mk [] [TrashedProject.mk "p1" "P" "/p" 0 0]) "p1"
    (TrashedProject.mk "p1" "P" "/p" 0 0) (by simp)

/-- **C8**: deleting a trashed project from disk fails without touching the
registry when the system-trash facility is unavailable or when the trash
request reports failure; on success it removes the record permanently from
the in-app trash while leaving the active set alone. -/
theorem deleteFromDisk_facility_unavailable_no_mutation
    (reg : Registry) (trashedProject : TrashedProject) :
    handleDeleteProjectFromDisk none reg trashedProject
      = (DeleteOutcome.facilityUnavailable, reg)
    ∧ (∀ f : String → TrashItemResult, (f trashedProject.path).success = false →
        handleDeleteProjectFromDisk (some f) reg trashedProject
          = (DeleteOutcome.trashFailed, reg))
    ∧ (∀ f : String → TrashItemResult, (f trashedProject.path).success = true →
        handleDeleteProjectFromDisk (some f) reg trashedProject
          = (DeleteOutcome.deleted, deleteTrashedProject reg trashedProject.id)
        ∧ (deleteTrashedProject reg trashedProject.id).active = reg.active
        ∧ ∀ q ∈ (deleteTrashedProject reg trashedProject.id).trashed,
            q.id ≠ trashedProject.id) := by
  refine ⟨rfl, ?_, ?_⟩
  · intro f hf
    unfold handleDeleteProjectFromDisk
    simp [hf]
  · intro f hf
    refine ⟨?_, rfl, ?_⟩
    · unfold handleDeleteProjectFromDisk
      simp [hf]
    · intro q hq
      unfold deleteTrashedProject at hq
      simp only [List.mem_filter, decide_eq_true_eq] at hq
      exact hq.2

/-- Witness for C8 at a concrete registry with one trashed project. -/
theorem deleteFromDisk_facility_unavailable_no_mutation_witness :
    handleDeleteProjectFromDisk none
        (Registry.mk [] [TrashedProject.mk "p1" "P" "/p" 0 0])
        (TrashedProject.mk "p1" "P" "/p" 0 0)
      = (DeleteOutcome.facilityUnavailable,
         Registry.mk [] [TrashedProject.mk "p1" "P" "/p" 0 0])
    ∧ handleDeleteProjectFromDisk (some (fun _ => TrashItemResult.mk false (some "err")))
        (Registry.mk [] [TrashedProject.mk "p1" "P" "/p" 0 0])
        (TrashedProject.mk "p1" "P" "/p" 0 0)
      = (DeleteOutcome.trashFailed,
         Registry.mk [] [TrashedProject.mk "p1" "P" "/p" 0 0])
    ∧ handleDeleteProjectFromDisk (some (fun _ => TrashItemResult.mk true none))
        (Registry.mk [] [TrashedProject.mk "p1" "P" "/p" 0 0])
        (TrashedProject.mk "p1" "P" "/p" 0 0)
      = (DeleteOutcome.deleted,
         deleteTrashedProject
           (Registry.mk [] [TrashedProject.mk "p1" "P" "/p" 0 0]) "p1") :=
  ⟨(deleteFromDisk_facility_unavailable_no_mutation
      (Registry.mk [] [TrashedProject.mk "p1" "P" "/p" 0 0])
      (TrashedProject.mk "p1" "P" "/p" 0 0)).1,
   (deleteFromDisk_facility_unavailable_no_mutation
      (Registry.mk [] [TrashedProject.mk "p1" "P" "/p" 0 0])
      (TrashedProject.mk "p1" "P" "/p" 0 0)).2.1 _ rfl,
   ((deleteFromDisk_facility_unavailable_no_mutation
      (Registry.mk [] [TrashedProject.mk "p1" "P" "/p" 0 0])
      (TrashedProject.mk "p1" "P" "/p" 0 0)).2.2 _ rfl).1⟩

/-! ## Modular arithmetic of the cycler -/

/-- JavaScript `%` (truncated remainder) of any integer by a positive
modulus is strictly above `-l`. -/
theorem neg_lt_tmod (a : Int) {l : Int} (hl : 0 < l) : -l < a.tmod l := by
  cases a with
  | ofNat m =>
    have h := Int.tmod_nonneg l (Int.ofNat_nonneg m)
    have hgoal : (Int.ofNat m).tmod l = (↑m : Int).tmod l := rfl
    rw [hgoal]
    omega
  | negSucc m =>
    cases l with
    | ofNat n =>
      have hn : 0 < n := Int.ofNat_pos.mp hl
      have hlt : (m + 1) % n < n := Nat.mod_lt _ hn
      have heq : Int.tmod (Int.negSucc m) (Int.ofNat n)
          = -(Int.ofNat ((m + 1) % n)) := rfl
      rw [heq]
      exact Int.neg_lt_neg (Int.ofNat_lt.mpr hlt)
    | negSucc n =>
      exact absurd hl (not_lt.mpr (le_of_lt (Int.negSucc_lt_zero n)))

/-- The double-remainder correction `((a % l) + l) % l` in JavaScript
semantics equals the mathematical (Euclidean) remainder. -/
theorem tmod_shift_tmod (a l : Int) (hl : 0 < l) :
    ((a.tmod l) + l).tmod l = a % l := by
  have hylt : a.tmod l < l := Int.tmod_lt_of_pos a hl
  have hygt : -l < a.tmod l := neg_lt_tmod a hl
  have h0 : 0 ≤ a.tmod l + l := by omega
  rw [Int.tmod_eq_emod h0 (le_of_lt hl)]
  have h1 : (a.tmod l + l) % l = a.tmod l % l := by
    have h := Int.add_mul_emod_self_left (a.tmod l) l 1
    simpa using h
  rw [h1]
  have h2 : a.tmod l = a + l * (-(a.tdiv l)) := by
    have h := Int.tmod_add_tdiv a l
    linarith
  rw [h2, Int.add_mul_emod_self_left]

/-- **C4**: cycling `prev` walks candidates at increasing indices modulo
the valid-history length, cycling `next` walks decreasing indices with the
double-`%` correction agreeing with the true (Euclidean) modulus even for
negative intermediate values; on active list `[A, B, C]` with current `B`
and every path valid, `cyclePrev` lands on `C` (wrapping past the end) and
`cycleNext` lands on `A`. -/
theorem cycle_prev_increases_next_decreases_modularly
    (currentIndex attempts len : Nat) (hlen : 0 < len) :
    prevCandidateIndex currentIndex attempts len
        = (currentIndex + 1 + attempts) % len
    ∧ ((nextCandidateIndex currentIndex attempts len : Int)
        = ((currentIndex : Int) - 1 - (attempts : Int)) % (len : Int))
    ∧ (cyclePrevProject (fun _ => true) stABC).currentProject = some projC
    ∧ (cycleNextProject (fun _ => true) stABC).currentProject = some projA := by
  refine ⟨rfl, ?_, ?_, ?_⟩
  · have hl : (0 : Int) < (len : Int) := by exact_mod_cast hlen
    unfold nextCandidateIndex jsMod
    rw [tmod_shift_tmod _ _ hl]
    exact Int.toNat_of_nonneg
      (Int.emod_nonneg _ (by exact_mod_cast Nat.pos_iff_ne_zero.mp hlen))
  · decide
  · decide

/-- Witness for C4 at `currentIndex = 1`, `attempts = 0`, `len = 3`. -/
theorem cycle_prev_increases_next_decreases_modularly_witness :
    prevCandidateIndex 1 0 3 = (1 + 1 + 0) % 3
    ∧ ((nextCandidateIndex 1 0 3 : Int) = ((1 : Int) - 1 - (0 : Int)) % (3 : Int))
    ∧ (cyclePrevProject (fun _ => true) stABC).currentProject = some projC
    ∧ (cycleNextProject (fun _ => true) stABC).currentProject = some projA :=
  cycle_prev_increases_next_decreases_modularly 1 0 3 (by decide)

/-! ## No-op behaviour of the cycler -/

/-- When every project that validates is the current one, the `prev` loop
exhausts all attempts and returns nothing. -/
theorem cyclePrevLoop_none
    (validate : Project → Bool) (projects : List Project)
    (currentProject : Option Project) (validHistory : List String)
    (currentIndex : Nat)
    (h : ∀ p : Project, p ∈ projects → validate p = true →
        ∃ c, currentProject = some c ∧ p.id = c.id) :
    ∀ attempts remaining,
      cyclePrevLoop validate projects currentProject validHistory
        currentIndex attempts remaining = none := by
  intro attempts remaining
  induction remaining generalizing attempts with
  | zero => rfl
  | succ r ih =>
    unfold cyclePrevLoop
    cases hget : validHistory.get?
        (prevCandidateIndex currentIndex attempts validHistory.length) with
    | none => simp only [hget]; exact ih _
    | some targetProjectId =>
      cases hfind : projects.find? (fun p => p.id = targetProjectId) with
      | none => simp only [hget, hfind]; exact ih _
      | some target =>
        by_cases hv : validate target = true
        · obtain ⟨c, hc, hid⟩ :=
            h target (List.mem_of_find?_eq_some hfind) hv
          have hd : differsFromCurrent target currentProject = false := by
            rw [hc]
            unfold differsFromCurrent
            simp [hid]
          simp only [hget, hfind, hd, Bool.false_and, if_false]
          exact ih _
        · have hv' : validate target = false := by
            simpa using hv
          simp only [hget, hfind, hv', Bool.and_false, if_false]
          exact ih _

/-- Same exhaustion property for the `next` loop. -/
theorem cycleNextLoop_none
    (validate : Project → Bool) (projects : List Project)
    (currentProject : Option Project) (validHistory : List String)
    (currentIndex : Nat)
    (h : ∀ p : Project, p ∈ projects → validate p = true →
        ∃ c, currentProject = some c ∧ p.id = c.id) :
    ∀ attempts remaining,
      cycleNextLoop validate projects currentProject validHistory
        currentIndex attempts remaining = none := by
  intro attempts remaining
  induction remaining generalizing attempts with
  | zero => rfl
  | succ r ih =>
    unfold cycleNextLoop
    cases hget : validHistory.get?
        (nextCandidateIndex currentIndex attempts validHistory.length) with
    | none => simp only [hget]; exact ih _
    | some targetProjectId =>
      cases hfind : projects.find? (fun p => p.id = targetProjectId) with
      | none => simp only [hget, hfind]; exact ih _
      | some target =>
        by_cases hv : validate target = true
        · obtain ⟨c, hc, hid⟩ :=
            h target (List.mem_of_find?_eq_some hfind) hv
          have hd : differsFromCurrent target currentProject = false := by
            rw [hc]
            unfold differsFromCurrent
            simp [hid]
          simp only [hget, hfind, hd, Bool.false_and, if_false]
          exact ih _
        · have hv' : validate target = false := by
            simpa using hv
          simp only [hget, hfind, hv', Bool.and_false, if_false]
          exact ih _

/-- **C5**: cycling silently skips candidates whose path fails validation,
and it is a state-preserving no-op when fewer than two valid projects
exist in the filtered history or when every candidate other than the
current project fails validation; concretely, on `[A, B, C]` with current
`B` and only `A` valid, `cyclePrev` skips `C` and lands on `A`. -/
theorem cycle_skips_invalid_and_noops
    (validate : Project → Bool) (st : AppState)
    (hall : ∀ p : Project, p ∈ st.projects → validate p = true →
        ∃ c, st.currentProject = some c ∧ p.id = c.id) :
    cyclePrevProject validate st = st
    ∧ cycleNextProject validate st = st
    ∧ (∀ (v : Project → Bool) (st2 : AppState),
        (filterValidHistory st2.projects st2.projectHistory).length ≤ 1 →
        cyclePrevProject v st2 = st2 ∧ cycleNextProject v st2 = st2)
    ∧ (cyclePrevProject (fun p => p.id = projA.id) stABC).currentProject
        = some projA
    ∧ (cycleNextProject (fun p => p.id = projA.id) stABC).currentProject
        = some projA := by
  refine ⟨?_, ?_, ?_, by decide, by decide⟩
  · unfold cyclePrevProject
    split
    · rfl
    · dsimp only
      split
      · rfl
      · rw [cyclePrevLoop_none validate st.projects st.currentProject _ _ hall]
  · unfold cycleNextProject
    split
    · rfl
    · dsimp only
      split
      · rfl
      · rw [cycleNextLoop_none validate st.projects st.currentProject _ _ hall]
  · intro v st2 hlen
    constructor
    · unfold cyclePrevProject
      split
      · rfl
      · dsimp only
        rw [if_pos hlen]
    · unfold cycleNextProject
      split
      · rfl
      · dsimp only
        rw [if_pos hlen]

/-- Witness for C5 at the `[A, B, C]` state with a validator accepting
nothing (so every candidate other than the current project fails). -/
theorem cycle_skips_invalid_and_noops_witness :
    cyclePrevProject (fun _ => false) stABC = stABC
    ∧ cycleNextProject (fun _ => false) stABC = stABC
    ∧ (∀ (v : Project → Bool) (st2 : AppState),
        (filterValidHistory st2.projects st2.projectHistory).length ≤ 1 →
        cyclePrevProject v st2 = st2 ∧ cycleNextProject v st2 = st2)
    ∧ (cyclePrevProject (fun p => p.id = projA.id) stABC).currentProject
        = some projA
    ∧ (cycleNextProject (fun p => p.id = projA.id) stABC).currentProject
        = some projA :=
  cycle_skips_invalid_and_noops (fun _ => false) stABC (by simp)

/-! ## The commit of a successful cycle -/

/-- Whatever the `prev` loop returns was found in the valid history at the
returned index, lives in the project list, validates, and differs from the
current project. -/
theorem cyclePrevLoop_some_spec
    (validate : Project → Bool) (projects : List Project)
    (currentProject : Option Project) (validHistory : List String)
    (currentIndex : Nat) :
    ∀ attempts remaining (target : Project) (newIndex : Nat),
      cyclePrevLoop validate projects currentProject validHistory
        currentIndex attempts remaining = some (target, newIndex) →
      validHistory.get? newIndex = some target.id
      ∧ target ∈ projects
      ∧ validate target = true
      ∧ differsFromCurrent target currentProject = true := by
  intro attempts remaining
  induction remaining generalizing attempts with
  | zero =>
    intro target newIndex h
    simp [cyclePrevLoop] at h
  | succ r ih =>
    intro target newIndex h
    unfold cyclePrevLoop at h
    cases hget : validHistory.get?
        (prevCandidateIndex currentIndex attempts validHistory.length) with
    | none =>
      simp only [hget] at h
      exact ih _ _ _ h
    | some targetProjectId =>
      cases hfind : projects.find? (fun p => p.id = targetProjectId) with
      | none =>
        simp only [hget, hfind] at h
        exact ih _ _ _ h
      | some tgt =>
        by_cases hcond :
            (differsFromCurrent tgt currentProject && validate tgt) = true
        · simp only [hget, hfind, hcond, if_true] at h
          have hsplit : differsFromCurrent tgt currentProject = true
              ∧ validate tgt = true := by simpa using hcond
          obtain ⟨hd, hv⟩ := hsplit
          have hpair := Option.some.inj h
          have htgt : tgt = target := congrArg Prod.fst hpair
          have hidx := congrArg Prod.snd hpair
          have hid : tgt.id = targetProjectId := by
            simpa using List.find?_some hfind
          subst htgt
          simp only at hidx
          subst hidx
          refine ⟨?_, List.mem_of_find?_eq_some hfind, hv, hd⟩
          rw [hid]
          exact hget
        · have hcond' :
              (differsFromCurrent tgt currentProject && validate tgt) = false := by
            simpa using hcond
          simp only [hget, hfind, hcond', if_false] at h
          exact ih _ _ _ h

/-- Same characterization for the `next` loop. -/
theorem cycleNextLoop_some_spec
    (validate : Project → Bool) (projects : List Project)
    (currentProject : Option Project) (validHistory : List String)
    (currentIndex : Nat) :
    ∀ attempts remaining (target : Project) (newIndex : Nat),
      cycleNextLoop validate projects currentProject validHistory
        currentIndex attempts remaining = some (target, newIndex) →
      validHistory.get? newIndex = some target.id
      ∧ target ∈ projects
      ∧ validate target = true
      ∧ differsFromCurrent target currentProject = true := by
  intro attempts remaining
  induction remaining generalizing attempts with
  | zero =>
    intro target newIndex h
    simp [cycleNextLoop] at h
  | succ r ih =>
    intro target newIndex h
    unfold cycleNextLoop at h
    cases hget : validHistory.get?
        (nextCandidateIndex currentIndex attempts validHistory.length) with
    | none =>
      simp only [hget] at h
      exact ih _ _ _ h
    | some targetProjectId =>
      cases hfind : projects.find? (fun p => p.id = targetProjectId) with
      | none =>
        simp only [hget, hfind] at h
        exact ih _ _ _ h
      | some tgt =>
        by_cases hcond :
            (differsFromCurrent tgt currentProject && validate tgt) = true
        · simp only [hget, hfind, hcond, if_true] at h
          have hsplit : differsFromCurrent tgt currentProject = true
              ∧ validate tgt = true := by simpa using hcond
          obtain ⟨hd, hv⟩ := hsplit
          have hpair := Option.some.inj h
          have htgt : tgt = target := congrArg Prod.fst hpair
          have hidx := congrArg Prod.snd hpair
          have hid : tgt.id = targetProjectId := by
            simpa using List.find?_some hfind
          subst htgt
          simp only at hidx
          subst hidx
          refine ⟨?_, List.mem_of_find?_eq_some hfind, hv, hd⟩
          rw [hid]
          exact hget
        · have hcond' :
              (differsFromCurrent tgt currentProject && validate tgt) = false := by
            simpa using hcond
          simp only [hget, hfind, hcond', if_false] at h
          exact ih _ _ _ h

/-- **C6**: when a cycle finds its first valid differing candidate, the
commit sets it as current, replaces the history with the filtered
`validHistory` (a sublist of the original history — no promotion or
reordering of skipped entries), sets the index to the candidate's position
in `validHistory`, and switches the view; the project records and the
trash are untouched. -/
theorem cycle_commit_replaces_history_without_reorder
    (validate : Project → Bool) (st : AppState) (target : Project)
    (newIndex : Nat)
    (hlatch : st.isValidating = false)
    (hlen : ¬ st.projectHistory.length ≤ 1)
    (hlen2 : ¬ (filterValidHistory st.projects st.projectHistory).length ≤ 1) :
    (cyclePrevLoop validate st.projects st.currentProject
        (filterValidHistory st.projects st.projectHistory)
        (currentIndexIn st.currentProject
          (filterValidHistory st.projects st.projectHistory))
        0 (filterValidHistory st.projects st.projectHistory).length
      = some (target, newIndex) →
      cyclePrevProject validate st
        = { st with
            currentProject := some target
            projectHistory := filterValidHistory st.projects st.projectHistory
            projectHistoryIndex := newIndex
            currentView := "board" }
      ∧ (filterValidHistory st.projects st.projectHistory).get? newIndex
          = some target.id
      ∧ target ∈ st.projects ∧ validate target = true)
    ∧ (cycleNextLoop validate st.projects st.currentProject
        (filterValidHistory st.projects st.projectHistory)
        (currentIndexIn st.currentProject
          (filterValidHistory st.projects st.projectHistory))
        0 (filterValidHistory st.projects st.projectHistory).length
      = some (target, newIndex) →
      cycleNextProject validate st
        = { st with
            currentProject := some target
            projectHistory := filterValidHistory st.projects st.projectHistory
            projectHistoryIndex := newIndex
            currentView := "board" }
      ∧ (filterValidHistory st.projects st.projectHistory).get? newIndex
          = some target.id
      ∧ target ∈ st.projects ∧ validate target = true)
    ∧ List.Sublist (filterValidHistory st.projects st.projectHistory)
        st.projectHistory
    ∧ (∀ (p : Option Project) (vh : List String) (i : Nat),
        (switchProjectForCycling st p vh i).projects = st.projects
        ∧ (switchProjectForCycling st p vh i).trashedProjects
            = st.trashedProjects
        ∧ (switchProjectForCycling st p vh i).isValidating
            = st.isValidating) := by
  refine ⟨?_, ?_, List.filter_sublist _, fun p vh i => ⟨rfl, rfl, rfl⟩⟩
  · intro hloop
    obtain ⟨hget, hmem, hv, _⟩ := cyclePrevLoop_some_spec validate st.projects
      st.currentProject _ _ _ _ target newIndex hloop
    refine ⟨?_, hget, hmem, hv⟩
    unfold cyclePrevProject
    rw [if_neg (by simp [hlatch, hlen])]
    dsimp only
    rw [if_neg hlen2, hloop]
    rfl
  · intro hloop
    obtain ⟨hget, hmem, hv, _⟩ := cycleNextLoop_some_spec validate st.projects
      st.currentProject _ _ _ _ target newIndex hloop
    refine ⟨?_, hget, hmem, hv⟩
    unfold cycleNextProject
    rw [if_neg (by simp [hlatch, hlen])]
    dsimp only
    rw [if_neg hlen2, hloop]
    rfl

/-- Witness for C6 at the `[A, B, C]` state with everything valid:
`cyclePrev` commits `C` at position 2. -/
theorem cycle_commit_replaces_history_without_reorder_witness :
    (cyclePrevLoop (fun _ => true) stABC.projects stABC.currentProject
        (filterValidHistory stABC.projects stABC.projectHistory)
        (currentIndexIn stABC.currentProject
          (filterValidHistory stABC.projects stABC.projectHistory))
        0 (filterValidHistory stABC.projects stABC.projectHistory).length
      = some (projC, 2) →
      cyclePrevProject (fun _ => true) stABC
        = { stABC with
            currentProject := some projC
            projectHistory := filterValidHistory stABC.projects stABC.projectHistory
            projectHistoryIndex := 2
            currentView := "board" }
      ∧ (filterValidHistory stABC.projects stABC.projectHistory).get? 2
          = some projC.id
      ∧ projC ∈ stABC.projects ∧ (fun _ => true) projC = true)
    ∧ (cycleNextLoop (fun _ => true) stABC.projects stABC.currentProject
        (filterValidHistory stABC.projects stABC.projectHistory)
        (currentIndexIn stABC.currentProject
          (filterValidHistory stABC.projects stABC.projectHistory))
        0 (filterValidHistory stABC.projects stABC.projectHistory).length
      = some (projC, 2) →
      cycleNextProject (fun _ => true) stABC
        = { stABC with
            currentProject := some projC
            projectHistory := filterValidHistory stABC.projects stABC.projectHistory
            projectHistoryIndex := 2
            currentView := "board" }
      ∧ (filterValidHistory stABC.projects stABC.projectHistory).get? 2
          = some projC.id
      ∧ projC ∈ stABC.projects ∧ (fun _ => true) projC = true)
    ∧ List.Sublist (filterValidHistory stABC.projects stABC.projectHistory)
        stABC.projectHistory
    ∧ (∀ (p : Option Project) (vh : List String) (i : Nat),
        (switchProjectForCycling stABC p vh i).projects = stABC.projects
        ∧ (switchProjectForCycling stABC p vh i).trashedProjects
            = stABC.trashedProjects
        ∧ (switchProjectForCycling stABC p vh i).isValidating
            = stABC.isValidating) :=
  cycle_commit_replaces_history_without_reorder (fun _ => true) stABC projC 2
    rfl (by decide) (by decide)

/-- **C9**: at most one cycle operation is in flight — invoking `cyclePrev`
or `cycleNext` while the `isValidating` latch is held is a no-op; the
synchronous prefix (everything before the first `await`) refuses to start
and otherwise sets the latch, and every completed run restores the latch
to its value on entry. -/
theorem cycle_latch_single_flight
    (validate : Project → Bool) (st : AppState)
    (h : st.isValidating = true) :
    cyclePrevProject validate st = st
    ∧ cycleNextProject validate st = st
    ∧ cycleBegin st = none
    ∧ (∀ st2 stB : AppState, cycleBegin st2 = some stB →
        stB.isValidating = true)
    ∧ (∀ (v : Project → Bool) (st2 : AppState),
        (cyclePrevProject v st2).isValidating = st2.isValidating
        ∧ (cycleNextProject v st2).isValidating = st2.isValidating) := by
  refine ⟨?_, ?_, ?_, ?_, ?_⟩
  · unfold cyclePrevProject
    rw [if_pos (by simp [h])]
  · unfold cycleNextProject
    rw [if_pos (by simp [h])]
  · unfold cycleBegin
    rw [if_pos (by simp [h])]
  · intro st2 stB hb
    unfold cycleBegin at hb
    split at hb
    · exact absurd hb (by simp)
    · cases Option.some.inj hb
      rfl
  · intro v st2
    constructor
    · unfold cyclePrevProject
      split
      · rfl
      · dsimp only
        split
        · rfl
        · split
          · rfl
          · rfl
    · unfold cycleNextProject
      split
      · rfl
      · dsimp only
        split
        · rfl
        · split
          · rfl
          · rfl

/-- Witness for C9 at the `[A, B, C]` state with the latch held. -/
theorem cycle_latch_single_flight_witness :
    cyclePrevProject (fun _ => true) { stABC with isValidating := true }
        = { stABC with isValidating := true }
    ∧ cycleNextProject (fun _ => true) { stABC with isValidating := true }
        = { stABC with isValidating := true }
    ∧ cycleBegin { stABC with isValidating := true } = none
    ∧ (∀ st2 stB : AppState, cycleBegin st2 = some stB →
        stB.isValidating = true)
    ∧ (∀ (v : Project → Bool) (st2 : AppState),
        (cyclePrevProject v st2).isValidating = st2.isValidating
        ∧ (cycleNextProject v st2).isValidating = st2.isValidating) :=
  cycle_latch_single_flight (fun _ => true)
    { stABC with isValidating := true } rfl

end Automaker
